import Mathlib

/-!
Verification development for the Notes Manager server (`server/index.js`).

The embedding models:
* the categorization engine: the keyword taxonomy `CATEGORIES`, the
  word-boundary occurrence counter that mirrors the JavaScript regex
  `\b<escaped keyword>\b` with flags `gi` applied to the lower-cased
  title and content, and the strict-greater fold that selects the best
  category (falling back to `"General"`);
* the note store: the `POST /api/notes`, `PUT /api/notes/:id`,
  `DELETE /api/notes/:id`, `GET /api/notes` and `GET /api/notes/search`
  handlers, as state-passing functions over the list of rows of the
  `notes` table.  `Date.now()` and `crypto.randomUUID()` are passed in
  as explicit parameters.  SQL `LIKE` is modelled with its SQLite
  semantics (`%` matches any sequence, `_` any single character,
  ASCII-case-insensitive comparison otherwise).

Character-level operations are modelled for ASCII (Lean's
`Char.toLower`/`Char.isAlphanum` are ASCII-only, matching SQLite's
ASCII case folding and the regex `\w` class `[A-Za-z0-9_]`).
-/

namespace NotesManager

/-- The regex word-character class `\w`, i.e. `[A-Za-z0-9_]`. -/
def isWordChar (c : Char) : Bool :=
  c.isAlphanum || c == '_'

/-- Lower-casing of a character sequence, modelling `String.prototype.toLowerCase`. -/
def lowerStr (s : List Char) : List Char :=
  s.map Char.toLower

/-- Whether position `i` of `s` holds a word character (`false` out of range). -/
def wordCharAt (s : List Char) (i : Nat) : Bool :=
  match s[i]? with
  | some c => isWordChar c
  | none => false

/-- The regex word-boundary assertion `\b` at position `i` of `s`:
the word-ness of the characters on the two sides of the position differs
(positions outside the string count as non-word). -/
def boundaryAt (s : List Char) (i : Nat) : Bool :=
  (if i = 0 then false else wordCharAt s (i - 1)) != wordCharAt s i

/-- Literal, case-insensitive match of `k` against a prefix of `s`,
modelling the escaped keyword characters of the regex under flag `i`. -/
def litMatch : List Char → List Char → Bool
  | [], _ => true
  | _ :: _, [] => false
  | c :: k, d :: s => (Char.toLower c == Char.toLower d) && litMatch k s

/-- A match of the regex `\b<escaped k>\b` at position `i` of `s`:
the keyword occurs literally at `i` and both ends sit on word boundaries. -/
def matchAt (s k : List Char) (i : Nat) : Bool :=
  litMatch k (s.drop i) && (boundaryAt s i && boundaryAt s (i + k.length))

/-- Scan of the global regex from position `i`: count non-overlapping
matches, resuming after each match (a zero-width match advances by one,
as `lastIndex` does in JavaScript).  `fuel` bounds the recursion; every
step advances `i` by at least one, so `s.length + 1` fuel from `i = 0`
runs the scan to completion. -/
def countFrom (s k : List Char) : Nat → Nat → Nat
  | _, 0 => 0
  | i, fuel + 1 =>
    if s.length < i then 0
    else if matchAt s k i then countFrom s k (i + max 1 k.length) fuel + 1
    else countFrom s k (i + 1) fuel

/-- `(str.match(regex) || []).length` for the global word-boundary regex
of keyword `k` over string `s`. -/
def countOccur (s k : List Char) : Nat :=
  countFrom s k 0 (s.length + 1)

/-- The keyword taxonomy `CATEGORIES` of `server/index.js`, in object-literal
(insertion) iteration order. -/
def CATEGORIES : List (String × List String) :=
  [ ("Educational",
     ["study", "exam", "course", "lecture", "homework", "university", "college",
      "school", "research", "learn", "learning", "student", "teacher", "professor",
      "assignment", "thesis", "dissertation", "tutorial", "education", "class",
      "semester", "grade", "textbook", "curriculum", "syllabus", "academic",
      "scholarship", "diploma", "degree", "knowledge", "training", "workshop",
      "quiz", "test", "chapter", "notes", "reading", "essay", "paper"]),
    ("Business",
     ["meeting", "client", "revenue", "project", "deadline", "strategy",
      "invoice", "budget", "stakeholder", "presentation", "proposal", "contract",
      "negotiation", "partnership", "marketing", "sales", "profit", "loss",
      "startup", "entrepreneur", "customer", "vendor", "supplier", "logistics",
      "operations", "management", "leadership", "team", "corporate", "office",
      "quarterly", "kpi", "roi", "target", "pipeline", "deal", "agenda",
      "milestone", "deliverable", "report", "analytics", "forecast"]),
    ("Personal",
     ["family", "birthday", "vacation", "hobby", "diary", "goal", "friend",
      "relationship", "wedding", "anniversary", "party", "weekend", "home",
      "garden", "cooking", "recipe", "pet", "dog", "cat", "kids", "children",
      "parent", "mom", "dad", "shopping", "gift", "memory", "dream", "wish",
      "journal", "gratitude", "love", "emotion", "feeling", "personal",
      "self-care", "mindfulness", "meditation", "reflection"]),
    ("Technology",
     ["code", "programming", "software", "api", "server", "database", "bug",
      "deploy", "frontend", "backend", "algorithm", "javascript", "python",
      "react", "node", "html", "css", "git", "github", "docker", "cloud",
      "aws", "azure", "linux", "windows", "app", "application", "framework",
      "library", "component", "function", "variable", "debug", "compile",
      "ai", "machine learning", "data science", "cybersecurity", "devops",
      "microservice", "architecture", "terminal", "command", "script",
      "automation", "testing", "ci/cd", "agile", "scrum", "tech", "computer"]),
    ("Finance",
     ["investment", "savings", "bank", "tax", "salary", "expense", "loan",
      "stock", "mutual fund", "portfolio", "dividend", "interest", "mortgage",
      "insurance", "retirement", "pension", "credit", "debit", "payment",
      "transaction", "accounting", "audit", "balance", "income", "wealth",
      "crypto", "bitcoin", "trading", "forex", "bond", "equity", "asset",
      "liability", "inflation", "emi", "finance", "financial", "money"]),
    ("Health",
     ["exercise", "diet", "workout", "doctor", "medicine", "sleep", "nutrition",
      "gym", "yoga", "running", "fitness", "weight", "calories", "protein",
      "vitamin", "supplement", "hospital", "clinic", "therapy", "mental health",
      "anxiety", "depression", "wellness", "hydration", "water", "walk",
      "stretching", "cardio", "strength", "recovery", "injury", "prescription",
      "checkup", "blood pressure", "heart", "health", "healthy", "disease"]),
    ("Travel",
     ["flight", "hotel", "trip", "destination", "passport", "itinerary",
      "booking", "tour", "airport", "luggage", "sightseeing", "beach",
      "mountain", "camping", "hiking", "road trip", "cruise", "resort",
      "backpacking", "visa", "ticket", "train", "bus", "adventure", "explore",
      "travel", "journey", "abroad", "international", "domestic", "tourism",
      "landmark", "museum", "culture", "restaurant", "street food"]) ]

/-- The inner scoring loop of `categorize`: fold over a category's keywords,
adding `titleMatches * 2 + contentMatches` for each keyword to the running
score (`tl` and `cl` are the already lower-cased title and content). -/
def scoreCategory (tl cl : List Char) (kws : List String) : Nat :=
  kws.foldl (fun score kw => score + (countOccur tl kw.data * 2 + countOccur cl kw.data)) 0

/-- The best-category selection fold of `categorize`: the running best is
replaced only when a category's score is strictly greater. -/
def pickBest (b : String × Nat) (l : List (String × Nat)) : String × Nat :=
  l.foldl (fun best q => if q.2 > best.2 then q else best) b

/-- `categorize(title, content)` of `server/index.js`: lower-case both
inputs, score every category, return the best scorer (strict-greater
updates, starting from `("General", 0)`). -/
def categorize (title content : String) : String :=
  let titleLower := lowerStr title.data
  let contentLower := lowerStr content.data
  (CATEGORIES.foldl
    (fun best p =>
      let score := scoreCategory titleLower contentLower p.2
      if score > best.2 then (p.1, score) else best)
    ("General", 0)).1

/-- Each taxonomy category paired with its score for the given inputs. -/
def scoredCategories (title content : String) : List (String × Nat) :=
  CATEGORIES.map (fun p => (p.1, scoreCategory (lowerStr title.data) (lowerStr content.data) p.2))

/-- The maximum category score for the given inputs (`0` when nothing matches). -/
def maxScore (title content : String) : Nat :=
  ((scoredCategories title content).map Prod.snd).foldl Nat.max 0

/-- The eight category labels the spec names (the seven taxonomy categories
plus the fallback `General`). -/
def knownLabels : List String :=
  ["Business", "Educational", "Personal", "Technology", "Finance", "Health", "Travel", "General"]

/-- A row of the `notes` table. -/
structure Note where
  id : String
  title : String
  content : String
  category : String
  createdAt : Nat
  updatedAt : Nat
deriving DecidableEq, Repr

/-- Error outcomes of the API handlers: `validation` is an HTTP 400 with its
message, `notFound` an HTTP 404, `internal` an HTTP 500 (a failed SQL
statement, e.g. an `INSERT` violating the primary-key constraint). -/
inductive ApiError where
  | validation (msg : String)
  | notFound
  | internal
deriving DecidableEq, Repr

/-- `String.prototype.trim`: drop leading and trailing whitespace
(structurally, so that it evaluates inside the kernel). -/
def trimChars (s : List Char) : List Char :=
  ((s.dropWhile Char.isWhitespace).reverse.dropWhile Char.isWhitespace).reverse

/-- `title.trim()` / `content.trim()` of the handlers. -/
def trim (s : String) : String :=
  ⟨trimChars s.data⟩

/-- Category resolution shared by create and update:
`let category = manualCategory; if (!category || category === 'Auto')
category = categorize(...)`. `none` models an absent request field. -/
def resolveCategory (manualCategory : Option String) (trimmedTitle trimmedContent : String) : String :=
  match manualCategory with
  | none => categorize trimmedTitle trimmedContent
  | some c => if c = "" || c = "Auto" then categorize trimmedTitle trimmedContent else c

/-- `POST /api/notes`: validate title and content, resolve the category,
insert the new row (an `INSERT` on an already-present id fails on the
primary-key constraint and changes nothing).  Returns the response and
the post-call table. -/
def createNote (st : List Note) (id : String) (now : Nat)
    (title content : String) (manualCategory : Option String) :
    Except ApiError Note × List Note :=
  if trim title = "" then (.error (.validation "Title is required"), st)
  else if trim content = "" then (.error (.validation "Content is required"), st)
  else if st.any (fun n => n.id == id) then (.error .internal, st)
  else
    let trimmedTitle := trim title
    let trimmedContent := trim content
    let category := resolveCategory manualCategory trimmedTitle trimmedContent
    let note : Note := ⟨id, trimmedTitle, trimmedContent, category, now, now⟩
    (.ok note, st ++ [note])

/-- `PUT /api/notes/:id`: look the row up first (404 when absent), then
validate, resolve the category, and update the row in place
(`createdAt` and `id` are not touched by the `UPDATE`). -/
def updateNote (st : List Note) (id : String) (now : Nat)
    (title content : String) (manualCategory : Option String) :
    Except ApiError Note × List Note :=
  match st.find? (fun n => n.id == id) with
  | none => (.error .notFound, st)
  | some existing =>
    if trim title = "" then (.error (.validation "Title is required"), st)
    else if trim content = "" then (.error (.validation "Content is required"), st)
    else
      let trimmedTitle := trim title
      let trimmedContent := trim content
      let category := resolveCategory manualCategory trimmedTitle trimmedContent
      let updated : Note :=
        { existing with
          title := trimmedTitle, content := trimmedContent,
          category := category, updatedAt := now }
      (.ok updated,
       st.map (fun n =>
         if n.id == id then
           { n with
             title := trimmedTitle, content := trimmedContent,
             category := category, updatedAt := now }
         else n))

/-- `DELETE /api/notes/:id`: 404 when the row is absent, otherwise remove it. -/
def deleteNote (st : List Note) (id : String) :
    Except ApiError Unit × List Note :=
  match st.find? (fun n => n.id == id) with
  | none => (.error .notFound, st)
  | some _ => (.ok (), st.filter (fun n => !(n.id == id)))

/-- The `ORDER BY createdAt DESC` ordering on rows. -/
def byCreatedDesc (a b : Note) : Prop :=
  b.createdAt ≤ a.createdAt

instance : DecidableRel byCreatedDesc :=
  fun a b => Nat.decLe b.createdAt a.createdAt

instance : IsTotal Note byCreatedDesc :=
  ⟨fun a b => Nat.le_total b.createdAt a.createdAt⟩

instance : IsTrans Note byCreatedDesc :=
  ⟨fun _ _ _ hab hbc => Nat.le_trans hbc hab⟩

/-- Sorting by `createdAt` descending, the `ORDER BY createdAt DESC` of the
read queries. -/
def sortByCreatedDesc (st : List Note) : List Note :=
  List.insertionSort byCreatedDesc st

/-- `GET /api/notes`: every row, ordered by `createdAt` descending. -/
def getNotes (st : List Note) : List Note :=
  sortByCreatedDesc st

/-- SQLite `LIKE` pattern matching (the whole string must match): `%`
matches any sequence of characters, `_` exactly one character, any other
pattern character matches itself up to ASCII case. -/
def likeMatch : List Char → List Char → Bool
  | [], s => s.isEmpty
  | c :: p, s =>
    if c = '%' then (List.range (s.length + 1)).any fun i => likeMatch p (s.drop i)
    else
      match s with
      | [] => false
      | d :: s' =>
        if c = '_' then likeMatch p s'
        else (Char.toLower c == Char.toLower d) && likeMatch p s'

/-- The `LIKE` pattern `` `%${keyword}%` `` built by the search handler. -/
def searchPattern (keyword : String) : List Char :=
  '%' :: keyword.data ++ ['%']

/-- `GET /api/notes/search?q=keyword`: the rows whose title or content
matches `LIKE '%keyword%'`, ordered by `createdAt` descending. -/
def searchNotes (st : List Note) (keyword : String) : List Note :=
  sortByCreatedDesc (st.filter fun n =>
    likeMatch (searchPattern keyword) n.title.data ||
    likeMatch (searchPattern keyword) n.content.data)

/-- Modelled from the spec: case-insensitive plain substring containment
(`s` contains `keyword` as a substring, comparing lower-cased text), the
matching the spec claims for `search`.  This is the spec-side definition
used to compare against the `LIKE`-based handler. -/
def containsCI (s keyword : String) : Bool :=
  (List.range (s.data.length + 1)).any fun i =>
    (lowerStr keyword.data).isPrefixOf ((lowerStr s.data).drop i)

/-- Every note in the table carries one of the eight known labels. -/
def storeInv (st : List Note) : Prop :=
  ∀ n ∈ st, n.category ∈ knownLabels

deriving instance DecidableEq for Except

/-! ## Helper lemmas -/

/-- A fold that keeps adding per-element points computes the sum of the points. -/
theorem foldl_add_eq (g : String → Nat) (l : List String) (a : Nat) :
    l.foldl (fun s x => s + g x) a = a + (l.map g).sum := by
  induction l generalizing a with
  | nil => simp
  | cons x l ih => rw [List.foldl_cons, ih]; simp [Nat.add_assoc]

theorem foldl_max_init_le (l : List Nat) (a : Nat) : a ≤ l.foldl Nat.max a := by
  induction l generalizing a with
  | nil => exact Nat.le_refl a
  | cons x l ih => exact Nat.le_trans (Nat.le_max_left a x) (ih (Nat.max a x))

theorem le_foldl_max_of_mem {l : List Nat} {x : Nat} (h : x ∈ l) (a : Nat) :
    x ≤ l.foldl Nat.max a := by
  induction l generalizing a with
  | nil => cases h
  | cons y l ih =>
    rcases List.mem_cons.mp h with rfl | hx
    · exact Nat.le_trans (Nat.le_max_right a x) (foldl_max_init_le l (Nat.max a x))
    · exact ih hx (Nat.max a y)

theorem foldl_max_attained (l : List Nat) (a : Nat) :
    l.foldl Nat.max a = a ∨ l.foldl Nat.max a ∈ l := by
  induction l generalizing a with
  | nil => exact Or.inl rfl
  | cons x l ih =>
    rcases ih (Nat.max a x) with h | h
    · rcases Nat.le_total a x with hax | hxa
      · right
        rw [List.foldl_cons, h, show Nat.max a x = x from Nat.max_eq_right hax]
        exact List.mem_cons_self x l
      · left
        rw [List.foldl_cons, h, show Nat.max a x = a from Nat.max_eq_left hxa]
    · exact Or.inr (List.mem_cons_of_mem x h)

theorem pickBest_of_le (l : List (String × Nat)) (b : String × Nat)
    (h : ∀ q ∈ l, q.2 ≤ b.2) : pickBest b l = b := by
  induction l with
  | nil => rfl
  | cons q l ih =>
    have hq : ¬ q.2 > b.2 := Nat.not_lt.mpr (h q (List.mem_cons_self q l))
    show List.foldl _ (if q.2 > b.2 then q else b) l = b
    rw [if_neg hq]
    exact ih (fun r hr => h r (List.mem_cons_of_mem q hr))

theorem pickBest_mem (b : String × Nat) (l : List (String × Nat)) :
    pickBest b l ∈ b :: l := by
  induction l generalizing b with
  | nil => exact List.mem_cons_self b []
  | cons q l ih =>
    show List.foldl _ (if q.2 > b.2 then q else b) l ∈ b :: q :: l
    by_cases hq : q.2 > b.2
    · rw [if_pos hq]
      exact List.mem_cons_of_mem b (ih q)
    · rw [if_neg hq]
      rcases List.mem_cons.mp (ih b) with h | h
      · exact List.mem_cons.mpr (Or.inl h)
      · exact List.mem_cons_of_mem b (List.mem_cons_of_mem q h)

theorem pickBest_snd (l : List (String × Nat)) (b : String × Nat) :
    (pickBest b l).2 = (l.map Prod.snd).foldl Nat.max b.2 := by
  induction l generalizing b with
  | nil => rfl
  | cons q l ih =>
    show (List.foldl _ (if q.2 > b.2 then q else b) l).2 = _
    rw [List.map_cons, List.foldl_cons]
    have hsnd : (if q.2 > b.2 then q else b).2 = Nat.max b.2 q.2 := by
      split
      · exact (Nat.max_eq_right (Nat.le_of_lt (by assumption))).symm
      · exact (Nat.max_eq_left (Nat.not_lt.mp (by assumption))).symm
    calc (List.foldl _ (if q.2 > b.2 then q else b) l).2
        = (l.map Prod.snd).foldl Nat.max (if q.2 > b.2 then q else b).2 := ih _
      _ = (l.map Prod.snd).foldl Nat.max (Nat.max b.2 q.2) := by rw [hsnd]

/-- The strict-greater selection fold lands on the first element achieving
the running maximum, whenever some element strictly exceeds the seed. -/
theorem pickBest_eq_find (l : List (String × Nat)) (b : String × Nat)
    (h : b.2 < (l.map Prod.snd).foldl Nat.max b.2) :
    l.find? (fun q => q.2 == (l.map Prod.snd).foldl Nat.max b.2) = some (pickBest b l) := by
  induction l generalizing b with
  | nil => simp at h
  | cons q l ih =>
    have hfold : ((q :: l).map Prod.snd).foldl Nat.max b.2
        = (l.map Prod.snd).foldl Nat.max (Nat.max b.2 q.2) := by
      rw [List.map_cons, List.foldl_cons]
    by_cases hq : q.2 = ((q :: l).map Prod.snd).foldl Nat.max b.2
    · rw [List.find?_cons_of_pos l (by simpa using hq)]
      have hgt : q.2 > b.2 := by omega
      have hrest : ∀ r ∈ l, r.2 ≤ q.2 := by
        intro r hr
        rw [hq, hfold]
        exact le_foldl_max_of_mem (List.mem_map_of_mem Prod.snd hr) _
      show some q = some (List.foldl _ (if q.2 > b.2 then q else b) l)
      rw [if_pos hgt, show List.foldl _ q l = pickBest q l from rfl, pickBest_of_le l q hrest]
    · rw [List.find?_cons_of_neg l (by simpa using hq)]
      have hqle : q.2 ≤ ((q :: l).map Prod.snd).foldl Nat.max b.2 :=
        le_foldl_max_of_mem (List.mem_map_of_mem Prod.snd (List.mem_cons_self q l)) _
      have hb' : (if q.2 > b.2 then q else b).2 = Nat.max b.2 q.2 := by
        split
        · exact (Nat.max_eq_right (Nat.le_of_lt (by assumption))).symm
        · exact (Nat.max_eq_left (Nat.not_lt.mp (by assumption))).symm
      have hmax_le : Nat.max b.2 q.2 ≤ ((q :: l).map Prod.snd).foldl Nat.max b.2 := by
        rcases Nat.le_total b.2 q.2 with hle | hle
        · rw [show Nat.max b.2 q.2 = q.2 from Nat.max_eq_right hle]; exact hqle
        · rw [show Nat.max b.2 q.2 = b.2 from Nat.max_eq_left hle]; exact Nat.le_of_lt h
      have hlt : (if q.2 > b.2 then q else b).2
          < (l.map Prod.snd).foldl Nat.max (if q.2 > b.2 then q else b).2 := by
        rw [hb']
        rw [hfold] at h hq hqle hmax_le
        rcases Nat.lt_or_ge (Nat.max b.2 q.2) ((l.map Prod.snd).foldl Nat.max (Nat.max b.2 q.2)) with hc | hc
        · exact hc
        · exfalso
          have hinit := foldl_max_init_le (l.map Prod.snd) (Nat.max b.2 q.2)
          have heq : (l.map Prod.snd).foldl Nat.max (Nat.max b.2 q.2) = Nat.max b.2 q.2 :=
            Nat.le_antisymm hc hinit
          rcases Nat.le_total b.2 q.2 with hle | hle
          · exact hq (heq.trans (Nat.max_eq_right hle)).symm
          · have hxb : (l.map Prod.snd).foldl Nat.max (Nat.max b.2 q.2) = b.2 :=
              heq.trans (Nat.max_eq_left hle)
            omega
      have := ih (if q.2 > b.2 then q else b) hlt
      rw [hfold, ← hb']
      show List.find? (fun r => r.2 == (l.map Prod.snd).foldl Nat.max (if q.2 > b.2 then q else b).2) l
          = some (List.foldl _ (if q.2 > b.2 then q else b) l)
      exact this

/-- `categorize` is the strict-greater selection fold over the scored taxonomy. -/
theorem categorize_eq_pickBest (title content : String) :
    categorize title content = (pickBest ("General", 0) (scoredCategories title content)).1 := by
  simp only [categorize, pickBest, scoredCategories, List.foldl_map]

/-- The engine only ever emits `"General"` or a taxonomy category name. -/
theorem categorize_mem_knownLabels (title content : String) :
    categorize title content ∈ knownLabels := by
  rw [categorize_eq_pickBest]
  have hmem := pickBest_mem ("General", 0) (scoredCategories title content)
  have hfst : (pickBest ("General", 0) (scoredCategories title content)).1
      ∈ ("General", (0 : Nat)).1 :: (scoredCategories title content).map Prod.fst := by
    rcases List.mem_cons.mp hmem with h | h
    · rw [h]
      exact List.mem_cons_self _ _
    · exact List.mem_cons_of_mem _ (List.mem_map_of_mem Prod.fst h)
  have hnames : (scoredCategories title content).map Prod.fst = CATEGORIES.map Prod.fst := by
    simp [scoredCategories, List.map_map]
  rw [hnames] at hfst
  have hall : ∀ x ∈ ("General", (0 : Nat)).1 :: CATEGORIES.map Prod.fst, x ∈ knownLabels := by
    decide
  exact hall _ hfst

/-! ## Claim theorems -/

/-- C1: for every category and every keyword of that category, `categorize`
adds `2 × (occurrences in the lower-cased title) + 1 × (occurrences in the
lower-cased content)` to that category's score; a keyword occurring once in
the title only contributes exactly `2`, once in the content only exactly `1`,
and repeated occurrences of the same keyword are all counted, not capped. -/
theorem scoreCategory_contribution :
    (∀ (tl cl : List Char) (pre : List String) (kw : String) (post : List String),
       scoreCategory tl cl (pre ++ kw :: post) =
         scoreCategory tl cl (pre ++ post) +
           (countOccur tl kw.data * 2 + countOccur cl kw.data))
    ∧ scoreCategory "budget".data "xyz".data ["budget"] = 2
    ∧ scoreCategory "xyz".data "budget".data ["budget"] = 1
    ∧ countOccur "test one test".data "test".data = 2 := by
  refine ⟨?_, by decide, by decide, by decide⟩
  intro tl cl pre kw post
  unfold scoreCategory
  rw [foldl_add_eq, foldl_add_eq]
  simp only [List.map_append, List.map_cons, List.sum_append, List.sum_cons]
  omega

/-- C2: keyword matching is whole-word bounded (an occurrence directly
preceded by a word character is not a match; `"testing this"` yields no match
for `"test"` while `"test this"` yields one), the keyword's characters are
matched literally even when they are regex-special (`"node.js"` does not
match `"nodexjs"`), and matching is case-insensitive (the engine matches on
the lower-cased input). -/
theorem boundedMatch_props :
    (∀ (pre : List Char) (c d : Char) (kw post : List Char),
       isWordChar c = true → isWordChar d = true →
       matchAt (pre ++ (c :: d :: (kw ++ post))) (d :: kw) (pre.length + 1) = false)
    ∧ countOccur "testing this".data "test".data = 0
    ∧ countOccur "test this".data "test".data = 1
    ∧ countOccur "use node.js now".data "node.js".data = 1
    ∧ countOccur "use nodexjs now".data "node.js".data = 0
    ∧ countOccur (lowerStr "TeSt This".data) "test".data = 1 := by
  refine ⟨?_, by decide, by decide, by decide, by decide, by decide⟩
  intro pre c d kw post hc hd
  have h1 : (pre ++ (c :: d :: (kw ++ post)))[pre.length]? = some c := by
    rw [List.getElem?_append_right (Nat.le_refl pre.length)]
    simp
  have h2 : (pre ++ (c :: d :: (kw ++ post)))[pre.length + 1]? = some d := by
    rw [List.getElem?_append_right (Nat.le_succ_of_le (Nat.le_refl pre.length))]
    simp [Nat.succ_sub (Nat.le_refl pre.length)]
  have hb : boundaryAt (pre ++ (c :: d :: (kw ++ post))) (pre.length + 1) = false := by
    unfold boundaryAt wordCharAt
    rw [if_neg (Nat.succ_ne_zero pre.length), Nat.add_sub_cancel, h1, h2]
    simp [hc, hd]
  unfold matchAt
  rw [hb]
  simp

/-- Witness for C2: the general no-match-inside-a-word statement at a
concrete input. -/
theorem boundedMatch_props_witness :
    matchAt (['x'] ++ ('a' :: 'b' :: (['c'] ++ [' ']))) ('b' :: ['c']) (List.length ['x'] + 1) = false :=
  boundedMatch_props.1 ['x'] 'a' 'b' ['c'] [' '] (by decide) (by decide)

/-- C3: `categorize` returns the category with the strictly highest score;
on a tie the first category in taxonomy iteration order that reached the
maximum wins (a later equal score never replaces the current best), and when
the maximum is `0` the fallback `"General"` is returned. -/
theorem categorize_first_max (title content : String) :
    categorize title content =
      if maxScore title content = 0 then "General"
      else (((scoredCategories title content).find?
              (fun q => q.2 == maxScore title content)).map Prod.fst).getD "General" := by
  rw [categorize_eq_pickBest]
  by_cases h0 : maxScore title content = 0
  · rw [if_pos h0]
    have hle : ∀ q ∈ scoredCategories title content, q.2 ≤ ("General", (0 : Nat)).2 := by
      intro q hq
      have := le_foldl_max_of_mem (List.mem_map_of_mem Prod.snd hq) 0
      have hm : maxScore title content
          = ((scoredCategories title content).map Prod.snd).foldl Nat.max 0 := rfl
      omega
    rw [pickBest_of_le _ _ hle]
  · rw [if_neg h0]
    have hlt : ("General", (0 : Nat)).2
        < ((scoredCategories title content).map Prod.snd).foldl Nat.max ("General", (0 : Nat)).2 :=
      Nat.pos_of_ne_zero h0
    have hfind := pickBest_eq_find (scoredCategories title content) ("General", 0) hlt
    have hms : ((scoredCategories title content).map Prod.snd).foldl Nat.max ("General", (0 : Nat)).2
        = maxScore title content := rfl
    rw [hms] at hfind
    rw [hfind]
    rfl

/-- C4: when no keyword of any category matches (every category scores
zero), `categorize` returns the fallback `"General"`. -/
theorem categorize_general_of_no_match (title content : String)
    (h : ∀ p ∈ CATEGORIES,
      scoreCategory (lowerStr title.data) (lowerStr content.data) p.2 = 0) :
    categorize title content = "General" := by
  rw [categorize_eq_pickBest]
  have hle : ∀ q ∈ scoredCategories title content, q.2 ≤ ("General", (0 : Nat)).2 := by
    intro q hq
    rcases List.mem_map.mp hq with ⟨p, hp, rfl⟩
    exact Nat.le_of_eq (h p hp)
  rw [pickBest_of_le _ _ hle]

/-- Witness for C4: the spec's own no-keyword example evaluates to `General`. -/
theorem categorize_general_of_no_match_witness :
    categorize "Random thoughts" "Just writing down whatever comes to mind" = "General" :=
  categorize_general_of_no_match _ _ (by decide)

/-- The resolved category is a known label whenever the caller's explicit
choice (if any, and if it is not the auto sentinel) is a known label. -/
theorem resolveCategory_mem (mc : Option String) (t c : String)
    (hmc : ∀ s, mc = some s → s = "" ∨ s = "Auto" ∨ s ∈ knownLabels) :
    resolveCategory mc t c ∈ knownLabels := by
  cases mc with
  | none => exact categorize_mem_knownLabels t c
  | some s =>
    show (if s = "" || s = "Auto" then categorize t c else s) ∈ knownLabels
    split
    · exact categorize_mem_knownLabels t c
    · rename_i hcond
      rcases hmc s rfl with h | h | h
      · exact absurd (by simp [h]) hcond
      · exact absurd (by simp [h]) hcond
      · exact h

/-- Part of C5: the claim as stated is false — `create` stores a
caller-supplied explicit category verbatim, so a category outside the eight
known labels enters the store. -/
theorem category_invariant_counterexample :
    ((createNote [] "n1" 0 "a" "b" (some "Bogus")).2.all
      (fun n => decide (n.category ∈ knownLabels))) = false := by
  decide

/-- C5 (amended): every operation preserves the eight-label invariant
provided a caller-supplied explicit category is itself a known label (or is
absent, empty, or the `"Auto"` sentinel, in which case the engine's output is
always a known label). -/
theorem storeInv_preserved (st : List Note) (hinv : storeInv st)
    (id : String) (now : Nat) (title content : String) (mc : Option String)
    (hmc : ∀ s, mc = some s → s = "" ∨ s = "Auto" ∨ s ∈ knownLabels) :
    storeInv (createNote st id now title content mc).2 ∧
    storeInv (updateNote st id now title content mc).2 ∧
    storeInv (deleteNote st id).2 := by
  refine ⟨?_, ?_, ?_⟩
  · unfold createNote
    split
    · exact hinv
    split
    · exact hinv
    split
    · exact hinv
    · intro n hn
      rcases List.mem_append.mp hn with h | h
      · exact hinv n h
      · rw [List.mem_singleton.mp h]
        exact resolveCategory_mem mc _ _ hmc
  · unfold updateNote
    split
    · exact hinv
    split
    · exact hinv
    split
    · exact hinv
    · intro n hn
      rcases List.mem_map.mp hn with ⟨m, hm, rfl⟩
      split
      · exact resolveCategory_mem mc _ _ hmc
      · exact hinv m hm
  · unfold deleteNote
    split
    · exact hinv
    · intro n hn
      exact hinv n (List.mem_filter.mp hn).1

/-- Witness for C5 (amended), on the empty store with the auto sentinel. -/
theorem storeInv_preserved_witness :
    storeInv (createNote [] "i" 0 "t" "c" (some "Auto")).2 ∧
    storeInv (updateNote [] "i" 0 "t" "c" (some "Auto")).2 ∧
    storeInv (deleteNote [] "i").2 :=
  storeInv_preserved [] (fun n hn => absurd hn (List.not_mem_nil n))
    "i" 0 "t" "c" (some "Auto")
    (fun _ hs => Or.inr (Or.inl (Option.some.inj hs).symm))

/-- C7: a created note has `createdAt = updatedAt` and carries the requested
id; a subsequent successful update of that id yields exactly the created note
with only `title`, `content`, `category` and `updatedAt` (set to the update's
current time) replaced — `id` and `createdAt` unchanged. -/
theorem create_then_update
    (st : List Note) (id : String) (now : Nat) (title content : String) (mc : Option String)
    (n : Note) (st' : List Note) (now2 : Nat) (t2 c2 : String) (mc2 : Option String)
    (n2 : Note) (st'' : List Note)
    (hc : createNote st id now title content mc = (.ok n, st'))
    (hu : updateNote st' id now2 t2 c2 mc2 = (.ok n2, st'')) :
    n.createdAt = n.updatedAt ∧ n.id = id ∧
    n2 = { n with
           title := trim t2, content := trim c2,
           category := resolveCategory mc2 (trim t2) (trim c2), updatedAt := now2 } := by
  unfold createNote at hc
  split at hc
  · exact absurd (congrArg Prod.fst hc) (by simp)
  split at hc
  · exact absurd (congrArg Prod.fst hc) (by simp)
  split at hc
  · exact absurd (congrArg Prod.fst hc) (by simp)
  rename_i hfresh
  have hn : n = ⟨id, trim title, trim content,
      resolveCategory mc (trim title) (trim content), now, now⟩ :=
    (Except.ok.inj (congrArg Prod.fst hc)).symm
  have hst' : st' = st ++ [⟨id, trim title, trim content,
      resolveCategory mc (trim title) (trim content), now, now⟩] :=
    (congrArg Prod.snd hc).symm
  have hfind : st'.find? (fun m => m.id == id) = some n := by
    rw [hst', List.find?_append]
    have h1 : st.find? (fun m => m.id == id) = none := by
      rw [List.find?_eq_none]
      intro m hm
      intro hbeq
      exact hfresh (List.any_eq_true.mpr ⟨m, hm, hbeq⟩)
    rw [h1, Option.none_or]
    rw [List.find?_cons_of_pos _ (by simp), hn]
  have hred : updateNote st' id now2 t2 c2 mc2 =
      (if trim t2 = "" then
        ((.error (.validation "Title is required") : Except ApiError Note), st')
       else if trim c2 = "" then (.error (.validation "Content is required"), st')
       else
        (.ok { n with
               title := trim t2, content := trim c2,
               category := resolveCategory mc2 (trim t2) (trim c2), updatedAt := now2 },
         st'.map (fun m =>
           if m.id == id then
             { m with
               title := trim t2, content := trim c2,
               category := resolveCategory mc2 (trim t2) (trim c2), updatedAt := now2 }
           else m))) := by
    unfold updateNote
    rw [hfind]
  rw [hred] at hu
  split at hu
  · exact absurd (congrArg Prod.fst hu) (by simp)
  split at hu
  · exact absurd (congrArg Prod.fst hu) (by simp)
  refine ⟨by rw [hn], by rw [hn], ?_⟩
  exact (Except.ok.inj (congrArg Prod.fst hu)).symm

/-- Witness for C7: create into the empty store, then update the note. -/
theorem create_then_update_witness :
    (⟨"i", "t", "c", "General", 5, 5⟩ : Note).createdAt
      = (⟨"i", "t", "c", "General", 5, 5⟩ : Note).updatedAt ∧
    (⟨"i", "t", "c", "General", 5, 5⟩ : Note).id = "i" ∧
    (⟨"i", "t2", "c2", "Personal", 5, 9⟩ : Note)
      = { (⟨"i", "t", "c", "General", 5, 5⟩ : Note) with
          title := trim "t2", content := trim "c2",
          category := resolveCategory (some "Personal") (trim "t2") (trim "c2"),
          updatedAt := 9 } :=
  create_then_update [] "i" 5 "t" "c" none
    ⟨"i", "t", "c", "General", 5, 5⟩ [⟨"i", "t", "c", "General", 5, 5⟩]
    9 "t2" "c2" (some "Personal")
    ⟨"i", "t2", "c2", "Personal", 5, 9⟩ [⟨"i", "t2", "c2", "Personal", 5, 9⟩]
    (by decide) (by decide)

/-- C8: update and delete on an absent id return NotFound and leave the
table unchanged; after a successful delete, neither the listing nor any
search result contains the deleted id, and a second delete of the same id
returns NotFound (leaving the table unchanged). -/
theorem delete_notFound_props (st : List Note) (id : String) :
    (st.find? (fun n => n.id == id) = none →
       (∀ now t c mc, updateNote st id now t c mc = (.error .notFound, st)) ∧
       deleteNote st id = (.error .notFound, st)) ∧
    (∀ st', deleteNote st id = (.ok (), st') →
       (∀ n ∈ getNotes st', ¬ n.id = id) ∧
       (∀ k, ∀ n ∈ searchNotes st' k, ¬ n.id = id) ∧
       deleteNote st' id = (.error .notFound, st')) := by
  constructor
  · intro hnone
    refine ⟨?_, ?_⟩
    · intro now t c mc
      unfold updateNote
      rw [hnone]
    · unfold deleteNote
      rw [hnone]
  · intro st' hdel
    unfold deleteNote at hdel
    cases hfind : st.find? (fun n => n.id == id) with
    | none =>
      rw [hfind] at hdel
      exact absurd (congrArg Prod.fst hdel) (by simp)
    | some m =>
      rw [hfind] at hdel
      have hst' : st' = st.filter (fun n => !(n.id == id)) :=
        (congrArg Prod.snd hdel).symm
      subst hst'
      refine ⟨?_, ?_, ?_⟩
      · intro n hn
        unfold getNotes sortByCreatedDesc at hn
        have hmem := (List.mem_insertionSort byCreatedDesc).mp hn
        have hp := (List.mem_filter.mp hmem).2
        simp only [Bool.not_eq_eq_eq_not, Bool.not_true, beq_eq_false_iff_ne] at hp
        exact hp
      · intro k n hn
        unfold searchNotes sortByCreatedDesc at hn
        have hmem := (List.mem_insertionSort byCreatedDesc).mp hn
        have hmem2 := (List.mem_filter.mp hmem).1
        have hp := (List.mem_filter.mp hmem2).2
        simp only [Bool.not_eq_eq_eq_not, Bool.not_true, beq_eq_false_iff_ne] at hp
        exact hp
      · unfold deleteNote
        have hnone2 : (st.filter (fun n => !(n.id == id))).find? (fun n => n.id == id) = none := by
          rw [List.find?_eq_none]
          intro n hn
          have hp := (List.mem_filter.mp hn).2
          simp only [Bool.not_eq_eq_eq_not, Bool.not_true] at hp
          simp [hp]
        rw [hnone2]

/-- Witness for C8: both parts at concrete stores. -/
theorem delete_notFound_props_witness :
    updateNote [⟨"1", "ab", "cd", "General", 0, 0⟩] "zz" 7 "x" "y" none
      = (.error .notFound, [⟨"1", "ab", "cd", "General", 0, 0⟩]) ∧
    deleteNote [⟨"1", "ab", "cd", "General", 0, 0⟩] "zz"
      = (.error .notFound, [⟨"1", "ab", "cd", "General", 0, 0⟩]) ∧
    deleteNote ([] : List Note) "1" = (.error .notFound, []) := by
  refine ⟨((delete_notFound_props [⟨"1", "ab", "cd", "General", 0, 0⟩] "zz").1
            (by decide)).1 7 "x" "y" none,
          ((delete_notFound_props [⟨"1", "ab", "cd", "General", 0, 0⟩] "zz").1
            (by decide)).2,
          ?_⟩
  exact ((delete_notFound_props [⟨"1", "ab", "cd", "General", 0, 0⟩] "1").2
          [] (by decide)).2.2

/-- C9: create and update reject with a validation failure whenever title or
content trims to empty (for update: whenever the id is present, since the
lookup runs first), and the table is unchanged. -/
theorem validation_rejected (st : List Note) (id : String) (now : Nat)
    (title content : String) (mc : Option String)
    (h : trim title = "" ∨ trim content = "") :
    (∃ msg, createNote st id now title content mc = (.error (.validation msg), st)) ∧
    ((st.find? (fun n => n.id == id)).isSome →
       ∃ msg, updateNote st id now title content mc = (.error (.validation msg), st)) := by
  by_cases ht : trim title = ""
  · refine ⟨⟨"Title is required", ?_⟩, ?_⟩
    · simp [createNote, ht]
    · intro hsome
      obtain ⟨m, hm⟩ := Option.isSome_iff_exists.mp hsome
      exact ⟨"Title is required", by simp [updateNote, hm, ht]⟩
  · have hcon : trim content = "" := h.resolve_left ht
    refine ⟨⟨"Content is required", ?_⟩, ?_⟩
    · simp [createNote, ht, hcon]
    · intro hsome
      obtain ⟨m, hm⟩ := Option.isSome_iff_exists.mp hsome
      exact ⟨"Content is required", by simp [updateNote, hm, ht, hcon]⟩

/-- Witness for C9: a whitespace-only title is rejected on create and on
update of an existing id. -/
theorem validation_rejected_witness :
    (∃ msg, createNote [⟨"1", "ab", "cd", "General", 0, 0⟩] "1" 3 " " "c" none
      = (.error (.validation msg), [⟨"1", "ab", "cd", "General", 0, 0⟩])) ∧
    (∃ msg, updateNote [⟨"1", "ab", "cd", "General", 0, 0⟩] "1" 3 " " "c" none
      = (.error (.validation msg), [⟨"1", "ab", "cd", "General", 0, 0⟩])) := by
  have h := validation_rejected [⟨"1", "ab", "cd", "General", 0, 0⟩] "1" 3 " " "c" none
    (Or.inl (by decide))
  exact ⟨h.1, h.2 (by decide)⟩

/-- C10: on update, the NotFound check precedes input validation — an
absent id yields NotFound for every title and content, including ones that
trim to empty. -/
theorem update_notFound_precedence (st : List Note) (id : String) (now : Nat)
    (title content : String) (mc : Option String)
    (h : ∀ n ∈ st, ¬ n.id = id) :
    updateNote st id now title content mc = (.error .notFound, st) := by
  have hnone : st.find? (fun n => n.id == id) = none :=
    List.find?_eq_none.mpr (fun n hn => by simpa using h n hn)
  unfold updateNote
  rw [hnone]

/-- Witness for C10: an unknown id with an empty title still yields NotFound. -/
theorem update_notFound_precedence_witness :
    updateNote [⟨"1", "ab", "cd", "General", 0, 0⟩] "zz" 0 "" "" none
      = (.error .notFound, [⟨"1", "ab", "cd", "General", 0, 0⟩]) :=
  update_notFound_precedence [⟨"1", "ab", "cd", "General", 0, 0⟩] "zz" 0 "" "" none
    (by decide)

/-- A lone `%` matches every string. -/
theorem likeMatch_pct_base (s : List Char) : likeMatch ['%'] s = true := by
  unfold likeMatch
  rw [if_pos rfl, List.any_eq_true]
  refine ⟨s.length, List.mem_range.mpr (Nat.lt_succ_self _), ?_⟩
  rw [List.drop_length]
  rfl

/-- A wildcard-free pattern followed by `%` matches exactly the strings it is
a (case-folded) prefix of. -/
theorem likeMatch_lit_pct (k : List Char) (hk : ∀ c ∈ k, ¬ c = '%' ∧ ¬ c = '_') :
    ∀ s, likeMatch (k ++ ['%']) s = (lowerStr k).isPrefixOf (lowerStr s) := by
  induction k with
  | nil =>
    intro s
    rw [List.nil_append, likeMatch_pct_base]
    simp [lowerStr, List.isPrefixOf]
  | cons c k ih =>
    intro s
    obtain ⟨hc1, hc2⟩ := hk c (List.mem_cons_self c k)
    have hk' : ∀ x ∈ k, ¬ x = '%' ∧ ¬ x = '_' := fun x hx => hk x (List.mem_cons_of_mem c hx)
    cases s with
    | nil =>
      simp [likeMatch, hc1, lowerStr, List.isPrefixOf]
    | cons d s' =>
      rw [List.cons_append]
      unfold likeMatch
      rw [if_neg hc1]
      show (if c = '_' then likeMatch (k ++ ['%']) s'
            else (Char.toLower c == Char.toLower d) && likeMatch (k ++ ['%']) s')
          = (lowerStr (c :: k)).isPrefixOf (lowerStr (d :: s'))
      rw [if_neg hc2, ih hk' s']
      simp [lowerStr, List.isPrefixOf]

/-- The handler's `LIKE '%keyword%'` test agrees with case-insensitive plain
substring containment whenever the keyword holds no `LIKE` wildcard. -/
theorem likeMatch_search (keyword : String)
    (hk : ∀ c ∈ keyword.data, ¬ c = '%' ∧ ¬ c = '_') (s : String) :
    likeMatch (searchPattern keyword) s.data = containsCI s keyword := by
  unfold searchPattern containsCI
  rw [List.cons_append]
  unfold likeMatch
  rw [if_pos rfl]
  have hfun : (fun i => likeMatch (keyword.data ++ ['%']) (s.data.drop i))
      = (fun i => (lowerStr keyword.data).isPrefixOf ((lowerStr s.data).drop i)) := by
    funext i
    rw [likeMatch_lit_pct keyword.data hk (s.data.drop i),
      show lowerStr (s.data.drop i) = (lowerStr s.data).drop i from
        List.map_drop Char.toLower s.data i]
  rw [hfun]

/-- The empty-keyword pattern `'%%'` matches every string. -/
theorem likeMatch_empty_keyword (s : List Char) : likeMatch (searchPattern "") s = true := by
  show likeMatch ('%' :: ([] ++ ['%'])) s = true
  unfold likeMatch
  rw [if_pos rfl, List.any_eq_true]
  exact ⟨0, List.mem_range.mpr (Nat.succ_pos _), by rw [List.drop_zero, List.nil_append,
    likeMatch_pct_base]⟩

/-- Searching with the empty keyword lists the whole table in listing order. -/
theorem searchNotes_empty (st : List Note) : searchNotes st "" = getNotes st := by
  unfold searchNotes getNotes
  congr 1
  rw [List.filter_eq_self]
  intro n _
  rw [likeMatch_empty_keyword, likeMatch_empty_keyword]
  rfl

/-- Part of C6: the claim as stated is false — the keyword is interpolated
into the `LIKE` pattern unescaped, so a keyword containing the wildcard `_`
matches notes that do not contain it as a substring. -/
theorem search_substring_counterexample :
    searchNotes [⟨"1", "ab", "cd", "General", 0, 0⟩] "_" ≠
      sortByCreatedDesc ([⟨"1", "ab", "cd", "General", 0, 0⟩].filter
        (fun n => containsCI n.title "_" || containsCI n.content "_")) := by
  decide

/-- C6 (amended): for every keyword free of the `LIKE` wildcards `%` and `_`,
search returns exactly the notes whose title or content contains the keyword
as a case-insensitive plain substring, in `createdAt`-descending order, and
search with the empty keyword returns exactly `listAll`'s output. -/
theorem search_substring_amended (st : List Note) (keyword : String)
    (h : ∀ c ∈ keyword.data, ¬ c = '%' ∧ ¬ c = '_') :
    searchNotes st keyword =
      sortByCreatedDesc (st.filter fun n =>
        containsCI n.title keyword || containsCI n.content keyword) ∧
    searchNotes st "" = getNotes st ∧
    List.Sorted byCreatedDesc (searchNotes st keyword) := by
  refine ⟨?_, searchNotes_empty st, ?_⟩
  · unfold searchNotes
    congr 1
    apply List.filter_congr
    intro n _
    rw [likeMatch_search keyword h n.title, likeMatch_search keyword h n.content]
  · unfold searchNotes sortByCreatedDesc
    exact List.sorted_insertionSort byCreatedDesc _

/-- Witness for C6 (amended) on a concrete store and keyword. -/
theorem search_substring_amended_witness :
    searchNotes [⟨"1", "ab", "cd", "General", 0, 0⟩] "b" =
      sortByCreatedDesc ([⟨"1", "ab", "cd", "General", 0, 0⟩].filter fun n =>
        containsCI n.title "b" || containsCI n.content "b") ∧
    searchNotes [⟨"1", "ab", "cd", "General", 0, 0⟩] ""
      = getNotes [⟨"1", "ab", "cd", "General", 0, 0⟩] ∧
    List.Sorted byCreatedDesc (searchNotes [⟨"1", "ab", "cd", "General", 0, 0⟩] "b") :=
  search_substring_amended [⟨"1", "ab", "cd", "General", 0, 0⟩] "b" (by decide)

end NotesManager
